import Mathlib

/-!
Shallow embedding of the indicator/statistics core of the Depo-Data
repository (`src/data/processor.py` and
`src/Database/etl_pipeline.py`), together with proofs settling the
spec claims about it.

Conventions of the embedding:
* Python floats are modelled by exact rationals `ℚ`; the two quantities
  whose computation takes a square root (`std_dev` and `volatility`) are
  modelled as real numbers via `Real.sqrt` of a rational radicand.
* Python `None` / pandas `NaN` entries of an output series are `Option.none`.
* A Python exception is an `Except.error`: `ValueError("No data points
  provided")` is `CalcError.invalidInput`, an unhandled
  `ZeroDivisionError` is `CalcError.zeroDivision`.
* Timestamps (`date` fields) are modelled as natural numbers; only their
  identity matters to the claims.
-/

namespace Depo

/-- One row of an ordered (timestamp, close) series, as consumed by
`DataProcessor.calculate_statistics` / `calculate_returns`. -/
structure PricePoint where
  date : ℕ
  close : ℚ
deriving DecidableEq

/-- One OHLC bar, as consumed by `TechnicalIndicatorCalculator.calculate_atr`. -/
structure Bar where
  high : ℚ
  low : ℚ
  close : ℚ
deriving DecidableEq

instance : Inhabited Bar := ⟨⟨0, 0, 0⟩⟩

/-- `statistics.mean`: arithmetic mean of a list (Python raises on an empty
list; every use below is guarded to non-empty slices). -/
def mean (l : List ℚ) : ℚ := l.sum / l.length

/-- `statistics.median`: middle element of the sorted list, or the average of
the two middle elements when the length is even. -/
def median (l : List ℚ) : ℚ :=
  let s := l.mergeSort (· ≤ ·)
  if l.length % 2 = 1 then s.getD (l.length / 2) 0
  else (s.getD (l.length / 2 - 1) 0 + s.getD (l.length / 2) 0) / 2

/-- Sum of squared deviations from the mean, the shared numerator of both
variance notions. -/
def sqDevSum (l : List ℚ) : ℚ := (l.map (fun x => (x - mean l) ^ 2)).sum

/-- Sample variance (denominator `n - 1`), the square of Python's
`statistics.stdev`. -/
def sampleVariance (l : List ℚ) : ℚ := sqDevSum l / ((l.length : ℚ) - 1)

/-- Population variance (denominator `n`), the square of Python's
`statistics.pstdev`.  The spec's words say "population std-dev"; this
definition exists to compare that reading against the source. -/
def popVariance (l : List ℚ) : ℚ := sqDevSum l / (l.length : ℚ)

/-- The radicand of the `std_dev` field computed at
`src/data/processor.py:44`: `statistics.stdev(closes) if len(closes) > 1
else 0.0`.  The Python value is the square root of this rational. -/
def stdDevSq (closes : List ℚ) : ℚ :=
  if 1 < closes.length then sampleVariance closes else 0

/-- The `std_dev` field of `calculate_statistics` as a real number:
`statistics.stdev(closes)` (square root of the sample variance) when the
series has more than one point, else `0.0`. -/
noncomputable def std_dev (closes : List ℚ) : ℝ :=
  Real.sqrt (stdDevSq closes)

/-- The `volatility` field of `calculate_statistics`
(`src/data/processor.py:45`): `(std_dev / mean_price) * 100 if mean_price
!= 0 else 0.0`. -/
noncomputable def volatility (closes : List ℚ) : ℝ :=
  if mean closes ≠ 0 then std_dev closes / (mean closes : ℝ) * 100 else 0

/-- What the spec's words call the std-dev: the population standard
deviation of the closes (compare with `std_dev`, embedded from the source). -/
noncomputable def popStdDevSpec (closes : List ℚ) : ℝ :=
  Real.sqrt (popVariance closes)

/-- The ways `calculate_statistics` / `calculate_returns` can raise:
`ValueError("No data points provided")` on empty input, or an unhandled
`ZeroDivisionError` from a division by a zero close price. -/
inductive CalcError where
  | invalidInput
  | zeroDivision
deriving DecidableEq

/-- The rational-valued fields of the dictionary returned by
`DataProcessor.calculate_statistics`.  The two float fields computed with a
square root (`std_dev`, `volatility`) are modelled by the functions
`std_dev` and `volatility` on the close list; the record stores the
radicand `std_dev_sq` (the Python `std_dev` is its square root). -/
structure StatsSummary where
  mean_close : ℚ
  median_close : ℚ
  std_dev_sq : ℚ
  min_price : ℚ
  max_price : ℚ
  min_date : ℕ
  max_date : ℕ
  total_change_pct : ℚ
deriving DecidableEq

/-- `DataProcessor.calculate_statistics` (`src/data/processor.py:12-58`).
Raises `ValueError` on empty input (line 24).  With more than one point and
a first close of `0`, line 38 divides by `closes[0]` and raises
`ZeroDivisionError`.  Otherwise it returns the summary record: `min`/`max`
are Python's builtin min/max of the closes, `min_idx`/`max_idx` their first
occurrence via `list.index`, and `total_change_pct` is
`(closes[-1] - closes[0]) / closes[0] * 100` for more than one point, else
`0.0`. -/
def calculate_statistics (pts : List PricePoint) : Except CalcError StatsSummary :=
  match pts with
  | [] => .error .invalidInput
  | p₀ :: rest =>
    let closes := (p₀ :: rest).map PricePoint.close
    let dates := (p₀ :: rest).map PricePoint.date
    if 1 < closes.length ∧ p₀.close = 0 then .error .zeroDivision
    else
      let min_price := (closes.min?).getD 0
      let max_price := (closes.max?).getD 0
      let min_idx := closes.indexOf min_price
      let max_idx := closes.indexOf max_price
      .ok {
        mean_close := mean closes
        median_close := median closes
        std_dev_sq := stdDevSq closes
        min_price := min_price
        max_price := max_price
        min_date := dates.getD min_idx 0
        max_date := dates.getD max_idx 0
        total_change_pct :=
          if 1 < closes.length then
            (closes.getD (closes.length - 1) 0 - p₀.close) / p₀.close * 100
          else 0
      }

/-- `true` iff `calculate_statistics` returns a summary record (does not
raise). -/
def statsOk (pts : List PricePoint) : Bool :=
  match calculate_statistics pts with
  | .ok _ => true
  | .error _ => false

/-- The list of `returns` fields produced by
`DataProcessor.calculate_returns` (`src/data/processor.py:61-81`): `0.0`
for the first point, `(close_i - close_{i-1}) / close_{i-1} * 100`
afterwards.  The Python loop raises `ZeroDivisionError` at the first index
whose previous close is `0`, i.e. exactly when some close other than the
last one is `0`; the `Except` models raising versus returning the full
list. -/
def calculate_returns (pts : List PricePoint) : Except CalcError (List ℚ) :=
  let closes := pts.map PricePoint.close
  if (0 : ℚ) ∈ closes.dropLast then .error .zeroDivision
  else
    .ok ((List.range pts.length).map fun i =>
      if i = 0 then 0
      else (closes.getD i 0 - closes.getD (i - 1) 0) / closes.getD (i - 1) 0 * 100)

/-- pandas `Series.rolling(window=period).mean()` over an all-finite series:
entry `i` is the mean of entries `i-period+1 .. i` once `period` values are
available, `NaN` (`none`) before that. -/
def rollingMean (data : List ℚ) (period : ℕ) : List (Option ℚ) :=
  (List.range data.length).map fun i =>
    if period ≤ i + 1 then some (mean ((data.drop (i + 1 - period)).take period))
    else none

/-- `TechnicalIndicatorCalculator.calculate_sma`
(`src/Database/etl_pipeline.py:215-217`): `data.rolling(window=period).mean()`. -/
def calculate_sma (data : List ℚ) (period : ℕ) : List (Option ℚ) :=
  rollingMean data period

/-- The `ma` fields produced by `DataProcessor.calculate_moving_average`
(`src/data/processor.py:84-106`): `statistics.mean(closes[i-window+1:i+1])`
when `i >= window - 1`, `None` before that. -/
def calculate_moving_average (closes : List ℚ) (window : ℕ) : List (Option ℚ) :=
  (List.range closes.length).map fun i =>
    if window ≤ i + 1 then
      some (mean ((closes.drop (i + 1 - window)).take window))
    else none

/-- The recurrence of pandas `ewm(span=period, adjust=False).mean()` after
the seed: `y_i = (1 - α) * y_{i-1} + α * x_i`. -/
def emaFrom (α : ℚ) : ℚ → List ℚ → List ℚ
  | _, [] => []
  | prev, x :: xs =>
    let y := (1 - α) * prev + α * x
    y :: emaFrom α y xs

/-- `TechnicalIndicatorCalculator.calculate_ema`
(`src/Database/etl_pipeline.py:220-222`):
`data.ewm(span=period, adjust=False).mean()` with `α = 2 / (period + 1)`,
seeded by the first value (no warm-up `NaN`). -/
def calculate_ema (data : List ℚ) (period : ℕ) : List ℚ :=
  match data with
  | [] => []
  | x :: xs => x :: emaFrom (2 / ((period : ℚ) + 1)) x xs

/-- The series `delta.where(delta > 0, 0)` of
`calculate_rsi` (`src/Database/etl_pipeline.py:227-228`): the positive part
of each one-step difference; index 0, whose `diff` is `NaN`, fails the
`> 0` test and becomes `0`. -/
def gains (closes : List ℚ) : List ℚ :=
  (List.range closes.length).map fun i =>
    if i = 0 then 0
    else if 0 < closes.getD i 0 - closes.getD (i - 1) 0 then
      closes.getD i 0 - closes.getD (i - 1) 0
    else 0

/-- The series `-delta.where(delta < 0, 0)` of `calculate_rsi`
(`src/Database/etl_pipeline.py:229`): the magnitude of each negative
one-step difference; index 0, whose `diff` is `NaN`, fails the `< 0` test
and becomes `0`. -/
def losses (closes : List ℚ) : List ℚ :=
  (List.range closes.length).map fun i =>
    if i = 0 then 0
    else if closes.getD i 0 - closes.getD (i - 1) 0 < 0 then
      -(closes.getD i 0 - closes.getD (i - 1) 0)
    else 0

/-- `TechnicalIndicatorCalculator.calculate_rsi`
(`src/Database/etl_pipeline.py:225-232`).  `rs = gain / loss` in IEEE
arithmetic: with a positive loss the entry is `100 - 100 / (1 + rs)`; with
loss `0` and positive gain, `rs = +inf` and the entry is
`100 - 100/inf = 100`; with loss `0` and gain `0`, `rs = 0/0 = NaN` and the
entry is `NaN` (`none`).  Warm-up entries (fewer than `period` values) are
`NaN` (`none`). -/
def calculate_rsi (closes : List ℚ) (period : ℕ) : List (Option ℚ) :=
  (List.range closes.length).map fun i =>
    if period ≤ i + 1 then
      if mean (((losses closes).drop (i + 1 - period)).take period) ≠ 0 then
        some (100 - 100 /
          (1 + mean (((gains closes).drop (i + 1 - period)).take period) /
            mean (((losses closes).drop (i + 1 - period)).take period)))
      else if 0 < mean (((gains closes).drop (i + 1 - period)).take period) then some 100
      else none
    else none

/-- The true-range series of `calculate_atr`
(`src/Database/etl_pipeline.py:257-260`): `max(high-low, |high-prevClose|,
|low-prevClose|)`; at index 0 the shifted close is `NaN`, the row-wise
`max` skips `NaN`, and the value is `high - low` alone. -/
def trueRange (bars : List Bar) : List ℚ :=
  (List.range bars.length).map fun i =>
    if i = 0 then (bars.getD i default).high - (bars.getD i default).low
    else
      max ((bars.getD i default).high - (bars.getD i default).low)
        (max |(bars.getD i default).high - (bars.getD (i - 1) default).close|
          |(bars.getD i default).low - (bars.getD (i - 1) default).close|)

/-- `TechnicalIndicatorCalculator.calculate_atr`
(`src/Database/etl_pipeline.py:254-262`): rolling mean of the true range
over `period` entries. -/
def calculate_atr (bars : List Bar) (period : ℕ) : List (Option ℚ) :=
  rollingMean (trueRange bars) period

instance : Std.Antisymm (fun (a b : ℚ) => a ≤ b) :=
  ⟨fun h h' => le_antisymm h h'⟩

/-! ## Helper lemmas -/

theorem getElem?_map_range {α : Type} (f : ℕ → α) (n i : ℕ) (hi : i < n) :
    ((List.range n).map f)[i]? = some (f i) := by
  simp [List.getElem?_map, List.getElem?_range hi]

theorem emaFrom_one (xs : List ℚ) : ∀ prev : ℚ, emaFrom 1 prev xs = xs := by
  induction xs with
  | nil => intro prev; rfl
  | cons x xs ih =>
    intro prev
    simp only [emaFrom, ih]
    norm_num

theorem length_rollingMean (data : List ℚ) (p : ℕ) :
    (rollingMean data p).length = data.length := by
  simp [rollingMean]

theorem rollingMean_getElem? (data : List ℚ) (p i : ℕ) (hi : i < data.length) :
    (rollingMean data p)[i]? =
      some (if p ≤ i + 1 then some (mean ((data.drop (i + 1 - p)).take p)) else none) :=
  getElem?_map_range _ _ _ hi

theorem mean_nonneg {l : List ℚ} (h : ∀ x ∈ l, 0 ≤ x) : 0 ≤ mean l :=
  div_nonneg (List.sum_nonneg h) (Nat.cast_nonneg _)

theorem mean_eq_zero_of_all_zero {l : List ℚ} (h : ∀ x ∈ l, x = 0) : mean l = 0 := by
  simp [mean, List.sum_eq_zero h]

theorem calculate_statistics_cons_eq_of_pos (p : PricePoint) (rest : List PricePoint)
    (h : 1 < ((p :: rest).map PricePoint.close).length ∧ p.close = 0) :
    calculate_statistics (p :: rest) = .error .zeroDivision := by
  simp only [calculate_statistics]
  rw [if_pos h]

theorem calculate_statistics_cons_eq_of_neg (p : PricePoint) (rest : List PricePoint)
    (h : ¬(1 < ((p :: rest).map PricePoint.close).length ∧ p.close = 0)) :
    calculate_statistics (p :: rest) = .ok
      { mean_close := mean ((p :: rest).map PricePoint.close)
        median_close := median ((p :: rest).map PricePoint.close)
        std_dev_sq := stdDevSq ((p :: rest).map PricePoint.close)
        min_price := (((p :: rest).map PricePoint.close).min?).getD 0
        max_price := (((p :: rest).map PricePoint.close).max?).getD 0
        min_date := ((p :: rest).map PricePoint.date).getD
          (((p :: rest).map PricePoint.close).indexOf
            ((((p :: rest).map PricePoint.close).min?).getD 0)) 0
        max_date := ((p :: rest).map PricePoint.date).getD
          (((p :: rest).map PricePoint.close).indexOf
            ((((p :: rest).map PricePoint.close).max?).getD 0)) 0
        total_change_pct :=
          if 1 < ((p :: rest).map PricePoint.close).length then
            (((p :: rest).map PricePoint.close).getD
              (((p :: rest).map PricePoint.close).length - 1) 0 - p.close) / p.close * 100
          else 0 } := by
  simp only [calculate_statistics]
  rw [if_neg h]

theorem slice_length (l : List ℚ) (a k : ℕ) (h : a + k ≤ l.length) :
    ((l.drop a).take k).length = k := by
  simp only [List.length_take, List.length_drop]
  omega

theorem slice_sum (l : List ℚ) (a k : ℕ) (h : a + k ≤ l.length) :
    ((l.drop a).take k).sum = ∑ j ∈ Finset.range k, l.getD (a + j) 0 := by
  induction k with
  | zero => simp
  | succ k ih =>
    have hak : a + k < l.length := by omega
    rw [List.take_succ, List.sum_append, ih (by omega), Finset.sum_range_succ]
    congr 1
    rw [List.getElem?_drop, List.getElem?_eq_getElem hak, List.getD_eq_getElem _ _ hak]
    simp

theorem gains_nonneg (closes : List ℚ) : ∀ x ∈ gains closes, 0 ≤ x := by
  intro x hx
  simp only [gains, List.mem_map, List.mem_range] at hx
  obtain ⟨i, _, rfl⟩ := hx
  split_ifs with h1 h2
  · exact le_refl 0
  · exact le_of_lt h2
  · exact le_refl 0

theorem losses_nonneg (closes : List ℚ) : ∀ x ∈ losses closes, 0 ≤ x := by
  intro x hx
  simp only [losses, List.mem_map, List.mem_range] at hx
  obtain ⟨i, _, rfl⟩ := hx
  split_ifs with h1 h2
  · exact le_refl 0
  · linarith
  · exact le_refl 0

theorem getElem?_ne_of_lt_indexOf {l : List ℚ} {a : ℚ} {j : ℕ}
    (hj : j < l.indexOf a) : l[j]? ≠ some a := by
  induction l generalizing j with
  | nil => simp [List.indexOf] at hj
  | cons x xs ih =>
    by_cases hx : x = a
    · subst hx
      rw [List.indexOf_cons_self] at hj
      omega
    · rw [List.indexOf_cons_ne _ hx] at hj
      cases j with
      | zero => simp [hx]
      | succ j =>
        rw [List.getElem?_cons_succ]
        exact ih (by omega)

theorem length_trueRange (bars : List Bar) : (trueRange bars).length = bars.length := by
  simp [trueRange]

/-! ## C5: EMA(1) is the identity -/

/-- C5: for every input series, `calculate_ema data 1` returns the input
series unchanged: the smoothing factor `α = 2/(period+1)` equals `1`, and
the EMA is seeded by the first value with no warm-up null. -/
theorem ema_period_one_identity (data : List ℚ) : calculate_ema data 1 = data := by
  cases data with
  | nil => rfl
  | cons x xs =>
    have hα : (2 : ℚ) / (((1 : ℕ) : ℚ) + 1) = 1 := by norm_num
    simp only [calculate_ema, hα, emaFrom_one]

/-! ## C8: statistics on a single-point series -/

/-- C8: on a series with exactly one data point, `calculate_statistics`
returns without raising, with `std_dev = 0`, `total_change_pct = 0` and
`volatility = 0` (and every price field equal to the single close). -/
theorem single_point_statistics (p : PricePoint) :
    calculate_statistics [p] =
      .ok ⟨p.close, p.close, 0, p.close, p.close, p.date, p.date, 0⟩ ∧
    std_dev [p.close] = 0 ∧ volatility [p.close] = 0 := by
  have hsd : std_dev [p.close] = 0 := by
    simp [std_dev, stdDevSq]
  refine ⟨?_, hsd, ?_⟩
  · simp [calculate_statistics, mean, median, stdDevSq, List.indexOf_cons_self]
  · by_cases h : mean [p.close] = 0
    · simp [volatility, h]
    · simp [volatility, h, hsd]

/-! ## C3: when calculate_statistics raises -/

/-- C3 (amended): `calculate_statistics` fails with `InvalidInput` exactly
on the empty series; on a non-empty series it raises `ZeroDivisionError`
exactly when there is more than one point and the first close is `0` (the
unguarded division computing `total_change_pct`), and otherwise returns a
summary record without raising. -/
theorem statistics_error_conditions (pts : List PricePoint) :
    (calculate_statistics pts = .error .invalidInput ↔ pts = []) ∧
    (calculate_statistics pts = .error .zeroDivision ↔
      1 < pts.length ∧ (pts.map PricePoint.close).getD 0 0 = 0) ∧
    ((pts ≠ [] ∧ ¬(1 < pts.length ∧ (pts.map PricePoint.close).getD 0 0 = 0)) →
      statsOk pts = true) := by
  cases pts with
  | nil => refine ⟨by simp [calculate_statistics], by simp [calculate_statistics], by simp⟩
  | cons p rest =>
    by_cases h : 1 < ((p :: rest).map PricePoint.close).length ∧ p.close = 0
    · refine ⟨?_, ?_, ?_⟩
      · rw [calculate_statistics_cons_eq_of_pos p rest h]
        simp
      · rw [calculate_statistics_cons_eq_of_pos p rest h]
        simpa using h
      · intro hc
        exact absurd (by simpa using h) hc.2
    · have hs := calculate_statistics_cons_eq_of_neg p rest h
      refine ⟨?_, ?_, ?_⟩
      · rw [hs]; simp
      · rw [hs]
        constructor
        · intro hcontra; simp at hcontra
        · intro hc; exact absurd (by simpa using hc) h
      · intro _
        simp only [statsOk, hs]

/-- C3, counterexample to the claim as stated: the two-point series with
first close `0` is non-empty, yet `calculate_statistics` raises (a
`ZeroDivisionError`, not a summary record). -/
theorem statistics_nonempty_raises_cex :
    calculate_statistics [⟨0, 0⟩, ⟨1, 5⟩] = .error .zeroDivision ∧
    ([(⟨0, 0⟩ : PricePoint), ⟨1, 5⟩] : List PricePoint) ≠ [] := by
  constructor
  · norm_num [calculate_statistics]
  · simp

/-- C3, witness: the amended theorem applied to the one-point series
`[⟨0, 1⟩]`, whose hypotheses are discharged by evaluation. -/
theorem statistics_error_conditions_witness :
    statsOk [(⟨0, 1⟩ : PricePoint)] = true :=
  (statistics_error_conditions [⟨0, 1⟩]).2.2 ⟨by simp, by norm_num⟩

/-! ## C10: day-to-day returns -/

/-- C10, counterexample to the claim as stated: a series whose first close
is `0` makes `calculate_returns` raise `ZeroDivisionError` instead of
returning a list. -/
theorem returns_zero_close_cex :
    calculate_returns [⟨0, 0⟩, ⟨1, 5⟩] = .error .zeroDivision := by
  norm_num [calculate_returns]

/-- C10 (amended): when no close before the last one is `0`,
`calculate_returns` returns a list of the same length as the input whose
first entry is the number `0.0` and whose entry `i > 0` is
`(close_i - close_{i-1}) / close_{i-1} * 100`; when some close before the
last is `0` the Python loop raises `ZeroDivisionError`. -/
theorem returns_spec (pts : List PricePoint)
    (h : (0 : ℚ) ∉ (pts.map PricePoint.close).dropLast) :
    ∃ l, calculate_returns pts = .ok l ∧ l.length = pts.length ∧
      (0 < pts.length → l[0]? = some 0) ∧
      ∀ i, 0 < i → i < pts.length →
        l[i]? = some (((pts.map PricePoint.close).getD i 0 -
            (pts.map PricePoint.close).getD (i - 1) 0) /
          (pts.map PricePoint.close).getD (i - 1) 0 * 100) := by
  refine ⟨(List.range pts.length).map fun i =>
      if i = 0 then 0
      else ((pts.map PricePoint.close).getD i 0 - (pts.map PricePoint.close).getD (i - 1) 0) /
        (pts.map PricePoint.close).getD (i - 1) 0 * 100, ?_, ?_, ?_, ?_⟩
  · simp only [calculate_returns]
    rw [if_neg h]
  · simp
  · intro h0
    rw [getElem?_map_range _ _ _ h0]
    simp
  · intro i hi hlen
    rw [getElem?_map_range _ _ _ hlen]
    simp [Nat.pos_iff_ne_zero.mp hi]

/-- C10, witness: the amended theorem applied to the series
`[(0, 1), (1, 2)]`, whose hypothesis is discharged by evaluation. -/
theorem returns_spec_witness :
    (0 : ℚ) ∉ (([⟨0, 1⟩, ⟨1, 2⟩] : List PricePoint).map PricePoint.close).dropLast ∧
    ∃ l, calculate_returns [⟨0, 1⟩, ⟨1, 2⟩] = .ok l ∧
      l.length = ([⟨0, 1⟩, ⟨1, 2⟩] : List PricePoint).length ∧
      (0 < ([⟨0, 1⟩, ⟨1, 2⟩] : List PricePoint).length → l[0]? = some 0) ∧
      ∀ i, 0 < i → i < ([⟨0, 1⟩, ⟨1, 2⟩] : List PricePoint).length →
        l[i]? = some (((([⟨0, 1⟩, ⟨1, 2⟩] : List PricePoint).map PricePoint.close).getD i 0 -
            (([⟨0, 1⟩, ⟨1, 2⟩] : List PricePoint).map PricePoint.close).getD (i - 1) 0) /
          (([⟨0, 1⟩, ⟨1, 2⟩] : List PricePoint).map PricePoint.close).getD (i - 1) 0 * 100) :=
  ⟨by norm_num, returns_spec [⟨0, 1⟩, ⟨1, 2⟩] (by norm_num)⟩

/-! ## C2: SMA shape and values -/

/-- C2: for every period `p ≥ 1` and every input series, `calculate_sma`
returns a sequence of the same length as the input, whose first `p-1`
entries are null (never zero or interpolated) and whose entry `i ≥ p-1` is
the arithmetic mean of the trailing `p` closes (`p` times the entry equals
the sum of `closes[i+1-p..i]`); `DataProcessor.calculate_moving_average`
computes the same sequence. -/
theorem sma_spec (closes : List ℚ) (p : ℕ) (hp : 1 ≤ p) :
    (calculate_sma closes p).length = closes.length ∧
    calculate_moving_average closes p = calculate_sma closes p ∧
    ∀ i, i < closes.length →
      (i + 1 < p → (calculate_sma closes p)[i]? = some none) ∧
      (p ≤ i + 1 → ∃ v, (calculate_sma closes p)[i]? = some (some v) ∧
        (p : ℚ) * v = ∑ j ∈ Finset.range p, closes.getD (i + 1 - p + j) 0) := by
  refine ⟨length_rollingMean closes p, rfl, ?_⟩
  intro i hi
  constructor
  · intro hlt
    rw [calculate_sma, rollingMean_getElem? closes p i hi, if_neg (by omega)]
  · intro hge
    refine ⟨mean ((closes.drop (i + 1 - p)).take p), ?_, ?_⟩
    · rw [calculate_sma, rollingMean_getElem? closes p i hi, if_pos hge]
    · have hlen : (i + 1 - p) + p ≤ closes.length := by omega
      have hp' : ((p : ℕ) : ℚ) ≠ 0 := Nat.cast_ne_zero.mpr (by omega)
      rw [mean, slice_length closes _ _ hlen, slice_sum closes _ _ hlen]
      field_simp

/-- C2, witness: the theorem applied to the series `[1, 3, 5]` with period
`2`. -/
theorem sma_spec_witness :
    1 ≤ 2 ∧
    ((calculate_sma [(1 : ℚ), 3, 5] 2).length = ([(1 : ℚ), 3, 5] : List ℚ).length ∧
      calculate_moving_average [(1 : ℚ), 3, 5] 2 = calculate_sma [(1 : ℚ), 3, 5] 2 ∧
      ∀ i, i < ([(1 : ℚ), 3, 5] : List ℚ).length →
        (i + 1 < 2 → (calculate_sma [(1 : ℚ), 3, 5] 2)[i]? = some none) ∧
        (2 ≤ i + 1 → ∃ v, (calculate_sma [(1 : ℚ), 3, 5] 2)[i]? = some (some v) ∧
          ((2 : ℕ) : ℚ) * v =
            ∑ j ∈ Finset.range 2, ([(1 : ℚ), 3, 5] : List ℚ).getD (i + 1 - 2 + j) 0)) :=
  ⟨by decide, sma_spec [(1 : ℚ), 3, 5] 2 (by decide)⟩

/-! ## C4: RSI bounds and the zero-loss case -/

/-- C4: every non-null RSI value lies in `[0, 100]`; and at a warm index
whose rolling average loss is zero the entry is the defined sentinel `100`
(positive average gain, the `rs = +inf` case) or null (zero average gain,
the `rs = 0/0 = NaN` case) — the computation is total, never an unhandled
arithmetic exception. -/
theorem rsi_bounds_and_zero_loss (closes : List ℚ) (period i : ℕ) :
    (∀ r, (calculate_rsi closes period)[i]? = some (some r) → 0 ≤ r ∧ r ≤ 100) ∧
    (i < closes.length → period ≤ i + 1 →
      mean (((losses closes).drop (i + 1 - period)).take period) = 0 →
      (calculate_rsi closes period)[i]? = some (some 100) ∨
      (calculate_rsi closes period)[i]? = some none) := by
  constructor
  · intro r hr
    by_cases hi : i < closes.length
    · rw [calculate_rsi, getElem?_map_range _ _ _ hi] at hr
      set g := mean (((gains closes).drop (i + 1 - period)).take period) with hg_def
      set l := mean (((losses closes).drop (i + 1 - period)).take period) with hl_def
      have hg : 0 ≤ g := mean_nonneg fun x hx =>
        gains_nonneg closes x (List.mem_of_mem_drop (List.mem_of_mem_take hx))
      have hl : 0 ≤ l := mean_nonneg fun x hx =>
        losses_nonneg closes x (List.mem_of_mem_drop (List.mem_of_mem_take hx))
      split_ifs at hr with hwarm hlz hgz
      · have hr' : 100 - 100 / (1 + g / l) = r := Option.some.inj (Option.some.inj hr)
        have hlpos : 0 < l := lt_of_le_of_ne hl (Ne.symm hlz)
        have hdiv : 0 ≤ g / l := div_nonneg hg hlpos.le
        have hub : 100 / (1 + g / l) ≤ 100 := div_le_self (by norm_num) (by linarith)
        have hlb : 0 ≤ 100 / (1 + g / l) := div_nonneg (by norm_num) (by linarith)
        constructor <;> linarith
      · have hr' : (100 : ℚ) = r := Option.some.inj (Option.some.inj hr)
        constructor <;> linarith
      · exact absurd hr (by simp)
      · exact absurd hr (by simp)
    · rw [calculate_rsi] at hr
      rw [List.getElem?_eq_none (by simpa using Nat.le_of_not_lt hi)] at hr
      exact absurd hr (by simp)
  · intro hi hwarm hloss
    rw [calculate_rsi, getElem?_map_range _ _ _ hi]
    rw [if_pos hwarm, if_neg (by simpa using hloss)]
    by_cases hgz : 0 < mean (((gains closes).drop (i + 1 - period)).take period)
    · left; rw [if_pos hgz]
    · right; rw [if_neg hgz]

/-- C4, witness: on the rising series `[1, 2, 3]` with period `2`, index
`2` has zero rolling average loss and the theorem yields the sentinel `100`
or null there (it is in fact `100`). -/
theorem rsi_bounds_and_zero_loss_witness :
    (2 < ([(1 : ℚ), 2, 3] : List ℚ).length ∧ 2 ≤ 2 + 1 ∧
      mean (((losses [(1 : ℚ), 2, 3]).drop (2 + 1 - 2)).take 2) = 0) ∧
    ((calculate_rsi [(1 : ℚ), 2, 3] 2)[2]? = some (some 100) ∨
      (calculate_rsi [(1 : ℚ), 2, 3] 2)[2]? = some none) :=
  ⟨⟨by decide, by decide, by norm_num [losses, mean, List.range_succ]⟩,
    (rsi_bounds_and_zero_loss [(1 : ℚ), 2, 3] 2 2).2 (by decide) (by decide)
      (by norm_num [losses, mean, List.range_succ])⟩

/-! ## C7: true range and ATR on a flat series -/

/-- C7: the true range at index 0 is `high - low` alone (no previous
close); at any later index it is
`max(high - low, |high - prevClose|, |low - prevClose|)`; and on a constant
series with `high = low = close` at every point, every ATR entry after
warm-up equals `0`. -/
theorem atr_flat_series (bars : List Bar) (period i : ℕ)
    (h1 : period ≤ i + 1) (hi : i < bars.length) :
    (trueRange bars)[0]? =
      some ((bars.getD 0 default).high - (bars.getD 0 default).low) ∧
    (∀ j, 0 < j → j < bars.length →
      (trueRange bars)[j]? =
        some (max ((bars.getD j default).high - (bars.getD j default).low)
          (max |(bars.getD j default).high - (bars.getD (j - 1) default).close|
            |(bars.getD j default).low - (bars.getD (j - 1) default).close|))) ∧
    ((∃ c : ℚ, ∀ b ∈ bars, b = ⟨c, c, c⟩) →
      (calculate_atr bars period)[i]? = some (some 0)) := by
  refine ⟨?_, ?_, ?_⟩
  · rw [trueRange, getElem?_map_range _ _ _ (by omega)]
    simp
  · intro j hj hjl
    rw [trueRange, getElem?_map_range _ _ _ hjl]
    simp [Nat.pos_iff_ne_zero.mp hj]
  · rintro ⟨c, hc⟩
    have htr : ∀ x ∈ trueRange bars, x = 0 := by
      intro x hx
      simp only [trueRange, List.mem_map, List.mem_range] at hx
      obtain ⟨j, hjn, rfl⟩ := hx
      have hbj : bars.getD j default = ⟨c, c, c⟩ := by
        rw [List.getD_eq_getElem _ _ hjn]
        exact hc _ (List.getElem_mem hjn)
      by_cases hj0 : j = 0
      · rw [if_pos hj0, hbj]
        simp
      · have hbj' : bars.getD (j - 1) default = ⟨c, c, c⟩ := by
          have hjn' : j - 1 < bars.length := by omega
          rw [List.getD_eq_getElem _ _ hjn']
          exact hc _ (List.getElem_mem hjn')
        rw [if_neg hj0, hbj, hbj']
        simp
    rw [calculate_atr,
      rollingMean_getElem? _ _ _ (by rw [length_trueRange]; exact hi), if_pos h1]
    rw [mean_eq_zero_of_all_zero fun x hx =>
      htr x (List.mem_of_mem_drop (List.mem_of_mem_take hx))]

/-- C7, witness: the theorem applied to the flat two-bar series at value
`5`, period `2`, index `1`. -/
theorem atr_flat_series_witness :
    2 ≤ 1 + 1 ∧ 1 < ([⟨5, 5, 5⟩, ⟨5, 5, 5⟩] : List Bar).length ∧
    ((trueRange [⟨5, 5, 5⟩, ⟨5, 5, 5⟩])[0]? =
      some ((([⟨5, 5, 5⟩, ⟨5, 5, 5⟩] : List Bar).getD 0 default).high -
        (([⟨5, 5, 5⟩, ⟨5, 5, 5⟩] : List Bar).getD 0 default).low) ∧
    (∀ j, 0 < j → j < ([⟨5, 5, 5⟩, ⟨5, 5, 5⟩] : List Bar).length →
      (trueRange [⟨5, 5, 5⟩, ⟨5, 5, 5⟩])[j]? =
        some (max ((([⟨5, 5, 5⟩, ⟨5, 5, 5⟩] : List Bar).getD j default).high -
            (([⟨5, 5, 5⟩, ⟨5, 5, 5⟩] : List Bar).getD j default).low)
          (max |(([⟨5, 5, 5⟩, ⟨5, 5, 5⟩] : List Bar).getD j default).high -
              (([⟨5, 5, 5⟩, ⟨5, 5, 5⟩] : List Bar).getD (j - 1) default).close|
            |(([⟨5, 5, 5⟩, ⟨5, 5, 5⟩] : List Bar).getD j default).low -
              (([⟨5, 5, 5⟩, ⟨5, 5, 5⟩] : List Bar).getD (j - 1) default).close|))) ∧
    ((∃ c : ℚ, ∀ b ∈ ([⟨5, 5, 5⟩, ⟨5, 5, 5⟩] : List Bar), b = ⟨c, c, c⟩) →
      (calculate_atr [⟨5, 5, 5⟩, ⟨5, 5, 5⟩] 2)[1]? = some (some 0))) :=
  ⟨by decide, by decide, atr_flat_series [⟨5, 5, 5⟩, ⟨5, 5, 5⟩] 2 1 (by decide) (by decide)⟩

/-! ## C1: which standard deviation the code computes -/

theorem sqDevSum_nonneg (l : List ℚ) : 0 ≤ sqDevSum l := by
  refine List.sum_nonneg ?_
  intro x hx
  simp only [sqDevSum, List.mem_map] at hx
  obtain ⟨y, _, rfl⟩ := hx
  positivity

/-- C1, counterexample to the claim as stated: on the two-point series with
closes `[1, 3]` the code's `std_dev` is `√2` (sample standard deviation,
denominator `n-1`), while the population standard deviation of the closes
is `1`; the two differ. -/
theorem std_dev_population_cex :
    calculate_statistics [⟨0, 1⟩, ⟨1, 3⟩] = .ok ⟨2, 2, 2, 1, 3, 0, 1, 200⟩ ∧
    std_dev [(1 : ℚ), 3] = Real.sqrt 2 ∧
    popStdDevSpec [(1 : ℚ), 3] = 1 ∧
    Real.sqrt 2 ≠ 1 := by
  refine ⟨?_, ?_, ?_, ?_⟩
  · norm_num [calculate_statistics, mean, median, stdDevSq, sampleVariance, sqDevSum,
      List.mergeSort, List.indexOf, List.findIdx, List.findIdx.go, cond_eq_if, beq_iff_eq,
      List.min?, List.max?, min_def, max_def]
  · have h2 : stdDevSq [(1 : ℚ), 3] = 2 := by
      norm_num [stdDevSq, sampleVariance, sqDevSum, mean]
    rw [std_dev, h2]
    norm_num
  · have h1 : popVariance [(1 : ℚ), 3] = 1 := by
      norm_num [popVariance, sqDevSum, mean]
    rw [popStdDevSpec, h1]
    norm_num
  · intro hcontra
    rw [Real.sqrt_eq_one] at hcontra
    norm_num at hcontra

/-- C1 (amended): the `std_dev` field of `calculate_statistics` is the
SAMPLE standard deviation of the close prices (square root of the sum of
squared deviations divided by `n - 1`, via `statistics.stdev`), not the
population standard deviation, and it is `0` when the series has exactly
one point. -/
theorem std_dev_is_sample_std_dev (pts : List PricePoint) (s : StatsSummary)
    (h : calculate_statistics pts = .ok s) :
    (1 < pts.length →
      s.std_dev_sq = sampleVariance (pts.map PricePoint.close) ∧
      std_dev (pts.map PricePoint.close) ^ 2 =
        (sampleVariance (pts.map PricePoint.close) : ℝ) ∧
      0 ≤ std_dev (pts.map PricePoint.close)) ∧
    (pts.length = 1 →
      s.std_dev_sq = 0 ∧ std_dev (pts.map PricePoint.close) = 0) := by
  cases pts with
  | nil => exact absurd h (by simp [calculate_statistics])
  | cons p rest =>
    by_cases hguard : 1 < ((p :: rest).map PricePoint.close).length ∧ p.close = 0
    · rw [calculate_statistics_cons_eq_of_pos p rest hguard] at h
      exact absurd h (by simp)
    · rw [calculate_statistics_cons_eq_of_neg p rest hguard] at h
      obtain rfl := (Except.ok.inj h).symm
      constructor
      · intro hlen
        have hlen' : 1 < ((p :: rest).map PricePoint.close).length := by
          simpa using hlen
        have hsq : stdDevSq ((p :: rest).map PricePoint.close) =
            sampleVariance ((p :: rest).map PricePoint.close) := by
          rw [stdDevSq, if_pos hlen']
        have hvar : 0 ≤ sampleVariance ((p :: rest).map PricePoint.close) := by
          refine div_nonneg (sqDevSum_nonneg _) ?_
          have hc : (1 : ℚ) < (((p :: rest).map PricePoint.close).length : ℚ) := by
            exact_mod_cast hlen'
          linarith
        refine ⟨hsq, ?_, Real.sqrt_nonneg _⟩
        rw [std_dev, hsq]
        exact Real.sq_sqrt (by exact_mod_cast hvar)
      · intro hlen1
        have hlen' : ¬1 < ((p :: rest).map PricePoint.close).length := by
          simp only [List.length_map]
          omega
        have hsq : stdDevSq ((p :: rest).map PricePoint.close) = 0 := by
          rw [stdDevSq, if_neg hlen']
        exact ⟨hsq, by rw [std_dev, hsq]; simp⟩

/-- C1, witness: the amended theorem applied to the series
`[(0, 1), (1, 3)]`, whose record is computed by evaluation. -/
theorem std_dev_is_sample_std_dev_witness :
    calculate_statistics [⟨0, 1⟩, ⟨1, 3⟩] = .ok ⟨2, 2, 2, 1, 3, 0, 1, 200⟩ ∧
    ((1 < ([⟨0, 1⟩, ⟨1, 3⟩] : List PricePoint).length →
      (StatsSummary.mk 2 2 2 1 3 0 1 200).std_dev_sq =
        sampleVariance (([⟨0, 1⟩, ⟨1, 3⟩] : List PricePoint).map PricePoint.close) ∧
      std_dev (([⟨0, 1⟩, ⟨1, 3⟩] : List PricePoint).map PricePoint.close) ^ 2 =
        (sampleVariance (([⟨0, 1⟩, ⟨1, 3⟩] : List PricePoint).map PricePoint.close) : ℝ) ∧
      0 ≤ std_dev (([⟨0, 1⟩, ⟨1, 3⟩] : List PricePoint).map PricePoint.close)) ∧
    (([⟨0, 1⟩, ⟨1, 3⟩] : List PricePoint).length = 1 →
      (StatsSummary.mk 2 2 2 1 3 0 1 200).std_dev_sq = 0 ∧
      std_dev (([⟨0, 1⟩, ⟨1, 3⟩] : List PricePoint).map PricePoint.close) = 0)) := by
  have hok : calculate_statistics [⟨0, 1⟩, ⟨1, 3⟩] = .ok ⟨2, 2, 2, 1, 3, 0, 1, 200⟩ := by
    norm_num [calculate_statistics, mean, median, stdDevSq, sampleVariance, sqDevSum,
      List.mergeSort, List.indexOf, List.findIdx, List.findIdx.go, cond_eq_if, beq_iff_eq,
      List.min?, List.max?, min_def, max_def]
  exact ⟨hok, std_dev_is_sample_std_dev [⟨0, 1⟩, ⟨1, 3⟩] ⟨2, 2, 2, 1, 3, 0, 1, 200⟩ hok⟩

/-! ## C6: min/max and their dates, first occurrence on ties -/

/-- C6: `calculate_statistics` returns the minimum and maximum close price
together with the date of the index at which each first occurs: the
returned price bounds every close, occurs in the list, and the recorded
date belongs to the least index holding that price. -/
theorem min_max_first_occurrence (pts : List PricePoint) (s : StatsSummary)
    (h : calculate_statistics pts = .ok s) :
    (s.min_price ∈ pts.map PricePoint.close ∧
      (∀ x ∈ pts.map PricePoint.close, s.min_price ≤ x) ∧
      ∃ i, i < pts.length ∧ (pts.map PricePoint.close)[i]? = some s.min_price ∧
        (∀ j, j < i → (pts.map PricePoint.close)[j]? ≠ some s.min_price) ∧
        (pts.map PricePoint.date)[i]? = some s.min_date) ∧
    (s.max_price ∈ pts.map PricePoint.close ∧
      (∀ x ∈ pts.map PricePoint.close, x ≤ s.max_price) ∧
      ∃ i, i < pts.length ∧ (pts.map PricePoint.close)[i]? = some s.max_price ∧
        (∀ j, j < i → (pts.map PricePoint.close)[j]? ≠ some s.max_price) ∧
        (pts.map PricePoint.date)[i]? = some s.max_date) := by
  cases pts with
  | nil => exact absurd h (by simp [calculate_statistics])
  | cons p rest =>
    by_cases hguard : 1 < ((p :: rest).map PricePoint.close).length ∧ p.close = 0
    · rw [calculate_statistics_cons_eq_of_pos p rest hguard] at h
      exact absurd h (by simp)
    · rw [calculate_statistics_cons_eq_of_neg p rest hguard] at h
      obtain rfl := (Except.ok.inj h).symm
      dsimp only
      have hmin : ((p :: rest).map PricePoint.close).min? =
          some ((rest.map PricePoint.close).foldl min p.close) := rfl
      have hmax : ((p :: rest).map PricePoint.close).max? =
          some ((rest.map PricePoint.close).foldl max p.close) := rfl
      have hminchar := (List.min?_eq_some_iff (fun a => le_refl a)
        (fun a b => min_choice a b) (fun a b c => le_min_iff)).mp hmin
      have hmaxchar := (List.max?_eq_some_iff (fun a => le_refl a)
        (fun a b => max_choice a b) (fun a b c => max_le_iff)).mp hmax
      rw [hmin, hmax]
      simp only [Option.getD_some]
      constructor
      · refine ⟨hminchar.1, hminchar.2, ?_⟩
        have hidx := List.indexOf_lt_length.mpr hminchar.1
        have hidx' : ((p :: rest).map PricePoint.close).indexOf
            ((rest.map PricePoint.close).foldl min p.close) < (p :: rest).length := by
          simpa using hidx
        have hidxd : ((p :: rest).map PricePoint.close).indexOf
            ((rest.map PricePoint.close).foldl min p.close) <
            ((p :: rest).map PricePoint.date).length := by
          simpa using hidx
        refine ⟨_, hidx', List.getElem?_indexOf hminchar.1,
          fun j hj => getElem?_ne_of_lt_indexOf hj, ?_⟩
        rw [List.getElem?_eq_getElem hidxd, List.getD_eq_getElem _ _ hidxd]
      · refine ⟨hmaxchar.1, hmaxchar.2, ?_⟩
        have hidx := List.indexOf_lt_length.mpr hmaxchar.1
        have hidx' : ((p :: rest).map PricePoint.close).indexOf
            ((rest.map PricePoint.close).foldl max p.close) < (p :: rest).length := by
          simpa using hidx
        have hidxd : ((p :: rest).map PricePoint.close).indexOf
            ((rest.map PricePoint.close).foldl max p.close) <
            ((p :: rest).map PricePoint.date).length := by
          simpa using hidx
        refine ⟨_, hidx', List.getElem?_indexOf hmaxchar.1,
          fun j hj => getElem?_ne_of_lt_indexOf hj, ?_⟩
        rw [List.getElem?_eq_getElem hidxd, List.getD_eq_getElem _ _ hidxd]

/-- C6, witness: the theorem applied to the series
`[(0, 3), (1, 1), (2, 1)]`, where the minimum `1` is attained at dates `1`
and `2` and the recorded `min_date` is the first, `1`. -/
theorem min_max_first_occurrence_witness :
    calculate_statistics [⟨0, 3⟩, ⟨1, 1⟩, ⟨2, 1⟩] =
      .ok ⟨5/3, 1, 4/3, 1, 3, 1, 0, -200/3⟩ ∧
    (((StatsSummary.mk (5/3) 1 (4/3) 1 3 1 0 (-200/3)).min_price ∈
        ([⟨0, 3⟩, ⟨1, 1⟩, ⟨2, 1⟩] : List PricePoint).map PricePoint.close ∧
      (∀ x ∈ ([⟨0, 3⟩, ⟨1, 1⟩, ⟨2, 1⟩] : List PricePoint).map PricePoint.close,
        (StatsSummary.mk (5/3) 1 (4/3) 1 3 1 0 (-200/3)).min_price ≤ x) ∧
      ∃ i, i < ([⟨0, 3⟩, ⟨1, 1⟩, ⟨2, 1⟩] : List PricePoint).length ∧
        (([⟨0, 3⟩, ⟨1, 1⟩, ⟨2, 1⟩] : List PricePoint).map PricePoint.close)[i]? =
          some (StatsSummary.mk (5/3) 1 (4/3) 1 3 1 0 (-200/3)).min_price ∧
        (∀ j, j < i →
          (([⟨0, 3⟩, ⟨1, 1⟩, ⟨2, 1⟩] : List PricePoint).map PricePoint.close)[j]? ≠
            some (StatsSummary.mk (5/3) 1 (4/3) 1 3 1 0 (-200/3)).min_price) ∧
        (([⟨0, 3⟩, ⟨1, 1⟩, ⟨2, 1⟩] : List PricePoint).map PricePoint.date)[i]? =
          some (StatsSummary.mk (5/3) 1 (4/3) 1 3 1 0 (-200/3)).min_date) ∧
    ((StatsSummary.mk (5/3) 1 (4/3) 1 3 1 0 (-200/3)).max_price ∈
        ([⟨0, 3⟩, ⟨1, 1⟩, ⟨2, 1⟩] : List PricePoint).map PricePoint.close ∧
      (∀ x ∈ ([⟨0, 3⟩, ⟨1, 1⟩, ⟨2, 1⟩] : List PricePoint).map PricePoint.close,
        x ≤ (StatsSummary.mk (5/3) 1 (4/3) 1 3 1 0 (-200/3)).max_price) ∧
      ∃ i, i < ([⟨0, 3⟩, ⟨1, 1⟩, ⟨2, 1⟩] : List PricePoint).length ∧
        (([⟨0, 3⟩, ⟨1, 1⟩, ⟨2, 1⟩] : List PricePoint).map PricePoint.close)[i]? =
          some (StatsSummary.mk (5/3) 1 (4/3) 1 3 1 0 (-200/3)).max_price ∧
        (∀ j, j < i →
          (([⟨0, 3⟩, ⟨1, 1⟩, ⟨2, 1⟩] : List PricePoint).map PricePoint.close)[j]? ≠
            some (StatsSummary.mk (5/3) 1 (4/3) 1 3 1 0 (-200/3)).max_price) ∧
        (([⟨0, 3⟩, ⟨1, 1⟩, ⟨2, 1⟩] : List PricePoint).map PricePoint.date)[i]? =
          some (StatsSummary.mk (5/3) 1 (4/3) 1 3 1 0 (-200/3)).max_date)) := by
  have hok : calculate_statistics [⟨0, 3⟩, ⟨1, 1⟩, ⟨2, 1⟩] =
      .ok ⟨5/3, 1, 4/3, 1, 3, 1, 0, -200/3⟩ := by
    norm_num [calculate_statistics, mean, median, stdDevSq, sampleVariance, sqDevSum,
      List.mergeSort, List.indexOf, List.findIdx, List.findIdx.go, cond_eq_if, beq_iff_eq,
      List.min?, List.max?, min_def, max_def]
  exact ⟨hok, min_max_first_occurrence [⟨0, 3⟩, ⟨1, 1⟩, ⟨2, 1⟩] _ hok⟩

/-! ## C9: volatility formula and its zero-mean guard -/

/-- C9: the volatility of a non-empty series is `(std_dev / mean) * 100`
when the mean close is nonzero (equivalently, volatility times the mean is
`std_dev * 100`), and is `0` when the mean close is `0` — the division is
guarded, so no division-by-zero error can occur. -/
theorem volatility_guarded (closes : List ℚ) (h : closes ≠ []) :
    (mean closes = 0 → volatility closes = 0) ∧
    (mean closes ≠ 0 →
      volatility closes = std_dev closes / (mean closes : ℝ) * 100 ∧
      volatility closes * (mean closes : ℝ) = std_dev closes * 100) := by
  constructor
  · intro h0
    rw [volatility, if_neg (by simp [h0])]
  · intro h0
    have hcast : ((mean closes : ℚ) : ℝ) ≠ 0 := by exact_mod_cast h0
    constructor
    · rw [volatility, if_pos h0]
    · rw [volatility, if_pos h0]
      field_simp

/-- C9, witness: the theorem applied to the one-point series `[1]`, whose
mean is `1 ≠ 0`. -/
theorem volatility_guarded_witness :
    ([(1 : ℚ)] : List ℚ) ≠ [] ∧ mean [(1 : ℚ)] ≠ 0 ∧
    (volatility [(1 : ℚ)] = std_dev [(1 : ℚ)] / (mean [(1 : ℚ)] : ℝ) * 100 ∧
      volatility [(1 : ℚ)] * (mean [(1 : ℚ)] : ℝ) = std_dev [(1 : ℚ)] * 100) :=
  ⟨by simp, by norm_num [mean],
    (volatility_guarded [(1 : ℚ)] (by simp)).2 (by norm_num [mean])⟩

end Depo
